import Mathlib

/-!
# Rules-engine effect factory and rule screen

A shallow embedding of two files of the gateway:

* `src/rules-engine/effects/index.js`: the table `effects` and `fromDescription`;
* `static/js/rule-screen.js`: `RuleScreen.show`, `onRuleUpdate`, `showConnection`,
  `hideConnection`, `makeDevicePropertyBlock`.

JavaScript data is embedded as the inductive type `JSVal`; property reads follow the
prototype chain up to `Object.prototype`; exceptions are explicit results; numbers are
binary64 values with round-to-nearest arithmetic.
-/

set_option autoImplicit false

namespace Gateway

/-! ## JavaScript values -/

/-- JavaScript data values: `undefined`, `null`, booleans, numbers, strings and plain
objects (own string-keyed data properties, prototype `Object.prototype`).
A number is carried by its canonical string form (the result of `Number::toString`),
so `-0` is `"0"` and not-a-number is `"NaN"`. -/
inductive JSVal where
  | undefined
  | null
  | bool (b : Bool)
  | num (canonical : String)
  | str (s : String)
  | obj (props : List (String × JSVal))

/-- Exceptions. `error m` is `new Error(m)` as thrown by `fromDescription` itself,
`typeError` is a `TypeError` of the language runtime, `raised e` is whatever an effect
class constructor threw. -/
inductive JSError (E : Type) where
  | error (message : String)
  | typeError (what : String)
  | raised (e : E)

/-- First own property stored under `key`. -/
def ownLookup {α : Type} (key : String) : List (String × α) → Option α
  | [] => none
  | (k, v) :: rest => if k = key then some v else ownLookup key rest

/-- ToBoolean. -/
def truthy : JSVal → Bool
  | .undefined => false
  | .null => false
  | .bool b => b
  | .num c => !(c = "0" || c = "NaN")
  | .str s => !(s = "")
  | .obj _ => true

/-- The read `v[key]` for a key that no built-in prototype defines (`type`, `trigger`,
`effect`, `property`): `undefined` and `null` throw, an object answers with its own
property or `undefined`, every other primitive answers `undefined`. -/
def getField {E : Type} (key : String) : JSVal → Except (JSError E) JSVal
  | .undefined => .error (.typeError ("Cannot read properties of undefined (reading " ++ key ++ ")"))
  | .null => .error (.typeError ("Cannot read properties of null (reading " ++ key ++ ")"))
  | .obj props =>
    match ownLookup key props with
    | some v => .ok v
    | none => .ok .undefined
  | _ => .ok .undefined

/-- ToString, as used both for a computed property key and for string concatenation.
A plain object inherits `Object.prototype.toString`; when it carries an own data property
`toString` neither that value nor `valueOf` yields a primitive and the conversion throws. -/
def toStringJS {E : Type} : JSVal → Except (JSError E) String
  | .undefined => .ok "undefined"
  | .null => .ok "null"
  | .bool b => .ok (if b then "true" else "false")
  | .num c => .ok c
  | .str s => .ok s
  | .obj props =>
    match ownLookup "toString" props with
    | some _ => .error (.typeError "Cannot convert object to primitive value")
    | none => .ok "[object Object]"

/-! ## JavaScript numbers -/

/-- The Number type: IEEE 754 binary64 values. A finite value is the rational it stands
for (`finite 0` stands for both zeros, which the code here cannot tell apart). -/
inductive JSNum where
  | finite (q : ℚ)
  | posInf
  | negInf
  | nan

/-- The integer nearest to `q`, the even one of two equally near. -/
def roundHalfEven (q : ℚ) : ℤ :=
  if q - ⌊q⌋ < 1 / 2 then ⌊q⌋
  else if 1 / 2 < q - ⌊q⌋ then ⌊q⌋ + 1
  else if ⌊q⌋ % 2 = 0 then ⌊q⌋ else ⌊q⌋ + 1

/-- The spacing of binary64 values around `q`: a significand of 53 bits above the least
normal exponent, the fixed spacing of the subnormal values below it. -/
def ulpOf (q : ℚ) : ℚ :=
  (2 : ℚ) ^ (max (Int.log 2 |q|) (-1022) - 52)

/-- The binary64 value of the real number `q`: round to nearest, ties to even, overflow to
an infinity. -/
def roundDouble (q : ℚ) : JSNum :=
  if q = 0 then .finite 0
  else if (2 : ℚ) ^ 1024 ≤ (roundHalfEven (q / ulpOf q) : ℚ) * ulpOf q then .posInf
  else if (roundHalfEven (q / ulpOf q) : ℚ) * ulpOf q ≤ -(2 : ℚ) ^ 1024 then .negInf
  else .finite ((roundHalfEven (q / ulpOf q) : ℚ) * ulpOf q)

/-- The operator `+` on numbers. -/
def JSNum.add : JSNum → JSNum → JSNum
  | .finite a, .finite b => roundDouble (a + b)
  | .nan, _ => .nan
  | _, .nan => .nan
  | .posInf, .negInf => .nan
  | .negInf, .posInf => .nan
  | .posInf, _ => .posInf
  | _, .posInf => .posInf
  | .negInf, _ => .negInf
  | _, .negInf => .negInf

/-- The operator `-` on numbers. -/
def JSNum.sub : JSNum → JSNum → JSNum
  | .finite a, .finite b => roundDouble (a - b)
  | .nan, _ => .nan
  | _, .nan => .nan
  | .posInf, .posInf => .nan
  | .negInf, .negInf => .nan
  | .posInf, _ => .posInf
  | _, .negInf => .posInf
  | .negInf, _ => .negInf
  | _, .posInf => .negInf

/-- The expression `x / 2`. -/
def JSNum.half : JSNum → JSNum
  | .finite a => roundDouble (a / 2)
  | .posInf => .posInf
  | .negInf => .negInf
  | .nan => .nan

/-! ## `effects/index.js` -/

/-- The four classes that `index.js` obtains with `require`. -/
inductive EffectClass where
  | Effect
  | ActionEffect
  | SetEffect
  | PulseEffect
  deriving DecidableEq, Repr

/-- Name of the module (and class) behind an `EffectClass`. -/
def EffectClass.className : EffectClass → String
  | .Effect => "Effect"
  | .ActionEffect => "ActionEffect"
  | .SetEffect => "SetEffect"
  | .PulseEffect => "PulseEffect"

/-- Own properties of the object bound to `effects`: tag and class. -/
abbrev Table := List (String × EffectClass)

/-- The object literal of lines 7 to 12. -/
def effects : Table :=
  [("Effect", .Effect), ("ActionEffect", .ActionEffect),
   ("SetEffect", .SetEffect), ("PulseEffect", .PulseEffect)]

/-- What the member read `effects[key]` can evaluate to when it is not `undefined`. -/
inductive Binding where
  | cls (c : EffectClass)
  | objectCtor
  | builtinMethod (name : String)
  | objectPrototype
  deriving DecidableEq, Repr

/-- Methods of `Object.prototype`: callable, none of them a constructor. -/
def objectPrototypeMethods : List String :=
  ["__defineGetter__", "__defineSetter__", "hasOwnProperty", "__lookupGetter__",
   "__lookupSetter__", "isPrototypeOf", "propertyIsEnumerable", "toString", "valueOf",
   "toLocaleString"]

/-- The read `Object.prototype[key]` seen through an object whose prototype it is:
`constructor` is the function `Object`, the accessor `__proto__` answers with
`Object.prototype`, the methods are themselves. -/
def objectPrototypeGet (key : String) : Option Binding :=
  if key = "constructor" then some .objectCtor
  else if key = "__proto__" then some .objectPrototype
  else if key ∈ objectPrototypeMethods then some (.builtinMethod key)
  else none

/-- The member read `effects[key]`: own properties first, then the prototype chain.
`none` stands for `undefined`. -/
def getMember (table : Table) (key : String) : Option Binding :=
  match ownLookup key table with
  | some c => some (.cls c)
  | none => objectPrototypeGet key

/-- What `new EffectClass(desc)` evaluates to: an instance made by an effect class, or,
for the function `Object`, the argument itself (an object) or its wrapper (a primitive). -/
inductive Built (Inst : Type) where
  | made (i : Inst)
  | given (desc : JSVal)
  | boxed (desc : JSVal)

/-- An effect class constructor: it receives the description, runs against the current
table (which `index.js` exports, so it is reachable) and returns an instance or throws. -/
abbrev Ctor (Inst E : Type) := EffectClass → JSVal → Table → Table × Except E Inst

/-- One constructor invocation: the class and the argument it received. -/
structure Call where
  cls : EffectClass
  arg : JSVal

/-- A finished call of `fromDescription`: the table afterwards, the constructor
invocations it made, and the value returned or the exception thrown. -/
structure Run (Inst E : Type) where
  effects : Table
  calls : List Call
  outcome : Except (JSError E) (Built Inst)

/-- The message of line 23 for the string form `s` of `desc.type`. -/
def unsupportedMessage (s : String) : String :=
  "Unsupported or invalid effect type:" ++ s

/-- The function `new Object(desc)`. -/
def newObject {Inst : Type} : JSVal → Built Inst
  | .obj props => .given (.obj props)
  | v => .boxed v

/-- The function `fromDescription(desc)` of lines 20 to 26, run against the table `table`. -/
def fromDescription {Inst E : Type} (ctor : Ctor Inst E) (table : Table) (desc : JSVal) :
    Run Inst E :=
  match getField "type" desc with
  | .error e => ⟨table, [], .error e⟩
  | .ok ty =>
    match toStringJS ty with
    | .error e => ⟨table, [], .error e⟩
    | .ok key =>
      match getMember table key with
      | none =>
        match toStringJS ty with
        | .error e => ⟨table, [], .error e⟩
        | .ok s => ⟨table, [], .error (.error (unsupportedMessage s))⟩
      | some (.cls c) =>
        match ctor c desc table with
        | (table', .ok i) => ⟨table', [⟨c, desc⟩], .ok (.made i)⟩
        | (table', .error e) => ⟨table', [⟨c, desc⟩], .error (.raised e)⟩
      | some .objectCtor => ⟨table, [], .ok (newObject desc)⟩
      | some (.builtinMethod _) => ⟨table, [], .error (.typeError "EffectClass is not a constructor")⟩
      | some .objectPrototype => ⟨table, [], .error (.typeError "EffectClass is not a constructor")⟩

/-- Runs `fromDescription` on each description in turn, threading the table. -/
def fromDescriptions {Inst E : Type} (ctor : Ctor Inst E) : Table → List JSVal → Table
  | table, [] => table
  | table, d :: ds => fromDescriptions ctor (fromDescription ctor table d).effects ds

/-- A constructor that records what it was given: the instance is the class and the
argument, the table is left alone. -/
def recordCtor : Ctor Call Empty :=
  fun c desc table => (table, .ok ⟨c, desc⟩)

/-- The part of an error message after the fixed text of line 23. -/
def offendingTag (message : String) : String :=
  (message.toList.drop "Unsupported or invalid effect type:".length).asString

/-! ## The effect classes -/

/-- Modelled from the spec: the classes `./Effect`, `./ActionEffect`, `./SetEffect` and
`./PulseEffect` are required by `index.js` and their sources are missing. By the spec an
effect instance is the live counterpart of a description: it keeps the originating
description and belongs to one variant. -/
structure EffectInstance where
  variant : EffectClass
  description : JSVal

/-- Modelled from the spec: what a constructor of the missing effect classes rejects. -/
inductive EffectError where
  | invalidDescription
  deriving DecidableEq, Repr

/-- Whether the plain object `desc` has an own property `key`. -/
def hasOwn (key : String) : JSVal → Bool
  | .obj props => (ownLookup key props).isSome
  | _ => false

/-- Modelled from the spec: the variant-specific fields of the missing effect classes.
ActionEffect targets an `action`, SetEffect a `property` with a `value`, PulseEffect a
`property` with a `value` held for `duration`; the base Effect is not independently
instantiable, so it has no field list of its own. -/
def variantFields : EffectClass → List String
  | .Effect => []
  | .ActionEffect => ["action"]
  | .SetEffect => ["property", "value"]
  | .PulseEffect => ["property", "value", "duration"]

/-- Modelled from the spec: the valid descriptions of the missing effect classes. A
description is valid for a variant when it carries every field of the variant; no
description is valid for the base Effect, which is not independently instantiable. -/
def validFields : EffectClass → JSVal → Bool
  | .Effect, _ => false
  | c, desc => (variantFields c).all (fun k => hasOwn k desc)

/-- Modelled from the spec: the constructors of the missing effect classes. A valid
description yields the instance that keeps it; anything else fails closed. Nothing is
written to shared registries. -/
def specCtor : Ctor EffectInstance EffectError :=
  fun c desc table =>
    (table, if validFields c desc then .ok ⟨c, desc⟩ else .error .invalidDescription)

/-- The own properties named in `keys` that `desc` carries, in the order of `keys`. -/
def pickFields (desc : JSVal) (keys : List String) : List (String × JSVal) :=
  keys.filterMap (fun k =>
    match desc with
    | .obj props => (ownLookup k props).map (fun v => (k, v))
    | _ => none)

/-- Modelled from the spec: `toDescription()` of the missing effect classes, which
serialises the current state back to the wire form: the tag of the variant followed by
the variant-specific fields. -/
def EffectInstance.toDescription (e : EffectInstance) : JSVal :=
  .obj (("type", .str e.variant.className) ::
    pickFields e.description (variantFields e.variant))

/-! ## `rule-screen.js` -/

namespace RuleScreen

/-- The two roles of a device property block. -/
inductive Role where
  | trigger
  | effect
  deriving DecidableEq, Repr

/-- The property name of a role, as in `this.rule[role]`. -/
def Role.key : Role → String
  | .trigger => "trigger"
  | .effect => "effect"

/-- The client-side `Rule` object (its class is not part of `rule-screen.js`) as far as
the screen reads it: `name` (`none` for `undefined`), `trigger`, `effect`, and the text
that `toHumanDescription()` returns. -/
structure Rule where
  name : Option String
  trigger : JSVal
  effect : JSVal
  humanDescription : String

/-- A thing description as far as the screen reads it. -/
structure Thing where
  name : String
  description : JSVal

/-- What the document answers to the queries of the screen: the `style.transform` of the
parent of the first `.device-block.trigger` and of the first `.device-block.effect`
(`none` when the selector matches nothing), whether `.dragging` matches, whether
`.device-property-block` matches. -/
structure Dom where
  triggerTransform : Option String
  effectTransform : Option String
  dragging : Bool
  propertyBlock : Bool

/-- The state of `RuleScreen` and of the elements it writes to: `this.rule`, the text of
the rule name and description, the class `hidden` on the connection and on the onboarding
hint, the attribute `d` of the path and the centres of the two circles inside the
connection (elements of the static page, taken to exist), the labels of the palette. -/
structure Screen where
  rule : Option Rule
  ruleNameText : String
  ruleDescriptionText : String
  connectionHidden : Bool
  onboardingHintHidden : Bool
  pathD : String
  triggerCx : String
  triggerCy : String
  effectCx : String
  effectCy : String
  devices : List String
  dom : Dom

/-- Exceptions of the screen code: only runtime `TypeError`s occur. -/
abbrev ScreenError := JSError Empty

/-- A pair of coordinates, as returned by `transformToCoords`. -/
structure Coords where
  x : JSNum
  y : JSNum

/-- Strips the literal `lit` from the front of `s`. -/
def stripLiteral : List Char → List Char → Option (List Char)
  | [], s => some s
  | _ :: _, [] => none
  | l :: ls, c :: cs => if l = c then stripLiteral ls cs else none

/-- The mathematical value of a run of decimal digits. -/
def digitsValue (ds : List Char) : ℕ :=
  ds.foldl (fun acc c => 10 * acc + (c.toNat - 48)) 0

/-- The function `parseFloat` on a run of decimal digits: the binary64 value nearest to
the mathematical value of the run. -/
def parseFloat (ds : List Char) : JSNum :=
  roundDouble (digitsValue ds : ℚ)

/-- The regular expression `/translate\((\d+)px, +(\d+)px\)/` tried at the front of `s`:
the two captured digit runs. Each `+` group is followed by a character outside its class,
so taking the longest run is what the backtracking matcher settles on. -/
def matchAt (s : List Char) : Option (List Char × List Char) :=
  match stripLiteral "translate(".toList s with
  | none => none
  | some s1 =>
    match s1.span Char.isDigit with
    | ([], _) => none
    | (d1, s2) =>
      match stripLiteral "px,".toList s2 with
      | none => none
      | some s3 =>
        match s3.span (fun c => c = ' ') with
        | ([], _) => none
        | (_, s4) =>
          match s4.span Char.isDigit with
          | ([], _) => none
          | (d2, s5) =>
            match stripLiteral "px)".toList s5 with
            | none => none
            | some _ => some (d1, d2)

/-- The leftmost match of the regular expression in `s`, as `String.prototype.match`
finds it; `none` for `null`. -/
def regexMatch : List Char → Option (List Char × List Char)
  | [] => matchAt []
  | c :: cs =>
    match matchAt (c :: cs) with
    | some m => some m
    | none => regexMatch cs

/-- The inner function `transformToCoords` of lines 126 to 135, applied to the
`style.transform` of an element. Without a match `matches` is `null` and `matches[1]`
throws. -/
def transformToCoords (transform : String) : Except ScreenError Coords :=
  match regexMatch transform.toList with
  | none => .error (.typeError "Cannot read properties of null (reading 1)")
  | some (d1, d2) => .ok ⟨parseFloat d1, parseFloat d2⟩

/-- The array of lines 146 to 149 joined with a blank; `numStr` is `Number::toString`. -/
def pathDesc (numStr : JSNum → String) (startX startY midX endX endY : JSNum) : String :=
  " ".intercalate
    ["M", numStr startX, numStr startY,
     "C", numStr midX, numStr startY, numStr midX, numStr endY, numStr endX, numStr endY]

/-- The method `showConnection` of lines 120 to 159: the state afterwards and the exception,
if one was thrown. `numStr` is `Number::toString`. -/
def showConnection (numStr : JSNum → String) (s : Screen) : Screen × Option ScreenError :=
  let s1 := { s with connectionHidden := false }
  match s1.dom.triggerTransform with
  | none => (s1, some (.typeError "Cannot read properties of null (reading parentNode)"))
  | some tt =>
    match s1.dom.effectTransform with
    | none => (s1, some (.typeError "Cannot read properties of null (reading parentNode)"))
    | some et =>
      match transformToCoords tt with
      | .error e => (s1, some e)
      | .ok triggerCoords =>
        match transformToCoords et with
        | .error e => (s1, some e)
        | .ok effectCoords =>
          let startX := triggerCoords.x.add (.finite 310)
          let startY := triggerCoords.y.add (.finite 50)
          let endX := effectCoords.x.sub (.finite 10)
          let endY := effectCoords.y.add (.finite 50)
          let midX := (startX.add endX).half
          ({ s1 with
              pathD := pathDesc numStr startX startY midX endX endY
              triggerCx := numStr startX
              triggerCy := numStr startY
              effectCx := numStr endX
              effectCy := numStr endY }, none)

/-- The method `hideConnection` of lines 161 to 163. -/
def hideConnection (s : Screen) : Screen :=
  { s with connectionHidden := true }

/-- The two methods that `onRuleUpdate` chooses between. -/
inductive ConnCall where
  | showConnection
  | hideConnection
  deriving DecidableEq, Repr

/-- A finished `onRuleUpdate`: the state afterwards, which of `showConnection` and
`hideConnection` it called, and the exception, if one was thrown. -/
structure Update where
  screen : Screen
  calls : List ConnCall
  error : Option ScreenError

/-- The expression `this.rule.name || "Rule Name"` of line 166. -/
def nameOrDefault : Option String → String
  | none => "Rule Name"
  | some n => if n = "" then "Rule Name" else n

/-- Lines 175 to 179: the onboarding hint is shown when no device property block exists. -/
def updateOnboardingHint (s : Screen) : Screen :=
  if !s.dom.propertyBlock then { s with onboardingHintHidden := false }
  else { s with onboardingHintHidden := true }

/-- The method `onRuleUpdate` of lines 165 to 180. -/
def onRuleUpdate (numStr : JSNum → String) (s : Screen) : Update :=
  match s.rule with
  | none => ⟨s, [], some (.typeError "Cannot read properties of null (reading name)")⟩
  | some r =>
    let s1 := { s with ruleNameText := nameOrDefault r.name
                       ruleDescriptionText := r.humanDescription }
    if truthy r.trigger && truthy r.effect && !s1.dom.dragging then
      match showConnection numStr s1 with
      | (s2, some e) => ⟨s2, [.showConnection], some e⟩
      | (s2, none) => ⟨updateOnboardingHint s2, [.showConnection], none⟩
    else
      ⟨updateOnboardingHint (hideConnection s1), [.hideConnection], none⟩

/-- A rectangle as `getBoundingClientRect` returns it. -/
structure Rect where
  width : JSNum
  height : JSNum

/-- One device property block made by `makeDevicePropertyBlock`: the arguments of
`new DevicePropertyBlock(ruleArea, rule, thing, x, y)` (`thing` is `none` when the filter
finds nothing) and the rule part handed to `setRulePart`. -/
structure Placed where
  role : Role
  thing : Option Thing
  x : JSNum
  y : JSNum
  part : JSVal

/-- The collaborators of the screen whose code lies outside `rule-screen.js`:
`Number::toString`, the body the rules engine answers with for a URL, the things that
`readThings` resolves with, the array `gateway.things`, the rectangle of the rule area,
the constructor `Rule`, `RuleUtils.byProperty`, and what constructing a
`DevicePropertyBlock` and calling `setRulePart` on it does to the document. -/
structure Env where
  numStr : JSNum → String
  fetched : String → JSVal
  things : List Thing
  gatewayThings : List Thing
  areaRect : Rect
  mkRule : JSVal → Rule
  byProperty : JSVal → Thing → Bool
  place : Dom → Placed → Dom

/-- The read `this.rule[role]`. -/
def Rule.part (r : Rule) : Role → JSVal
  | .trigger => r.trigger
  | .effect => r.effect

/-- The method `makeDevicePropertyBlock` of lines 110 to 118: the state afterwards and the
block made, or the exception thrown before any block exists. -/
def makeDevicePropertyBlock (env : Env) (s : Screen) (role : Role) (x y : JSNum) :
    Except ScreenError (Screen × Placed) :=
  match s.rule with
  | none => .error (.typeError ("Cannot read properties of null (reading " ++ role.key ++ ")"))
  | some r =>
    match getField "property" (r.part role) with
    | .error e => .error e
    | .ok property =>
      let thing := (env.gatewayThings.filter (env.byProperty property)).head?
      let placed : Placed := ⟨role, thing, x, y, r.part role⟩
      .ok ({ s with dom := env.place s.dom placed }, placed)

/-- A finished `show`: the state afterwards, the URLs fetched, the device property blocks
made, what the closing `onRuleUpdate` called, and the exception that rejected the promise
chain, if any. -/
structure Shown where
  screen : Screen
  fetches : List String
  blocks : List Placed
  calls : List ConnCall
  error : Option ScreenError

/-- Lines 184 to 191: the URLs fetched and the value `rulePromise` resolves with. -/
def rulePromise (env : Env) (ruleId : String) : List String × JSVal :=
  if ruleId ≠ "new" then
    (["/rules-engine/rules/" ++ ruleId], env.fetched ("/rules-engine/rules/" ++ ruleId))
  else ([], .null)

/-- Lines 193 to 199: one palette element per thing, labelled with its name. -/
def addDeviceBlocks (env : Env) (s : Screen) : Screen :=
  { s with devices := s.devices ++ env.things.map (fun t => t.name) }

/-- Lines 202 to 218: the continuation that receives `ruleDesc`. -/
def onRuleLoaded (env : Env) (s : Screen) (fetches : List String) (ruleDesc : JSVal) : Shown :=
  let s1 := { s with rule := some (env.mkRule ruleDesc) }
  let close := fun (s2 : Screen) (blocks : List Placed) =>
    let u := onRuleUpdate env.numStr s2
    (⟨u.screen, fetches, blocks, u.calls, u.error⟩ : Shown)
  if truthy ruleDesc then
    match getField "trigger" ruleDesc with
    | .error e => ⟨s1, fetches, [], [], some e⟩
    | .ok t =>
      let first : Except ScreenError (Screen × List Placed) :=
        if truthy t then
          match makeDevicePropertyBlock env s1 .trigger (.finite 20)
              env.areaRect.height.half with
          | .error e => .error e
          | .ok (s2, b) => .ok (s2, [b])
        else .ok (s1, [])
      match first with
      | .error e => ⟨s1, fetches, [], [], some e⟩
      | .ok (s2, made) =>
        match getField "effect" ruleDesc with
        | .error e => ⟨s2, fetches, made, [], some e⟩
        | .ok ef =>
          if truthy ef then
            match makeDevicePropertyBlock env s2 .effect
                (env.areaRect.width.sub (.finite 320)) env.areaRect.height.half with
            | .error e => ⟨s2, fetches, made, [], some e⟩
            | .ok (s3, b) => close s3 (made ++ [b])
          else close s2 made
  else close s1 []

/-- The method `show` of lines 182 to 219, followed until the promise chain settles
(`show` is a reserved word, hence the longer name). -/
def showRule (env : Env) (s : Screen) (ruleId : String) : Shown :=
  let (fetches, ruleDesc) := rulePromise env ruleId
  onRuleLoaded env (addDeviceBlocks env s) fetches ruleDesc

/-- How the document serialises a block placed at non-negative whole pixel offsets. -/
def translateCss (x y : ℕ) : String :=
  "translate(" ++ toString x ++ "px, " ++ toString y ++ "px)"

/-- The part of a description stored under `key`, `undefined` when it cannot be read. -/
def partOf (key : String) (desc : JSVal) : JSVal :=
  match getField (E := Empty) key desc with
  | .ok v => v
  | .error _ => .undefined

/-- The thing that `makeDevicePropertyBlock` finds for a rule part: the first of
`gateway.things` that `RuleUtils.byProperty` accepts for the property of the part. -/
def thingFor (env : Env) (part : JSVal) : Option Thing :=
  (env.gatewayThings.filter (env.byProperty (partOf "property" part))).head?

/-- The wording "the description is non-null and has a truthy `key`". -/
def hasTruthy (key : String) : JSVal → Bool
  | .null => false
  | desc =>
    match getField (E := Empty) key desc with
    | .ok v => truthy v
    | .error _ => false

/-- The constructor `Rule` keeps the trigger and the effect of the description it is built
from. -/
def KeepsParts (mkRule : JSVal → Rule) (desc : JSVal) : Prop :=
  ∀ (role : Role) (v : JSVal),
    getField (E := Empty) role.key desc = .ok v → (mkRule desc).part role = v

/-! ### Example values -/

/-- `Number::toString` on the infinities, on not-a-number, on the whole numbers and on the
positive halves, the values that occur in the examples below. -/
def exampleNumStr : JSNum → String
  | .finite q => if q.den = 1 then toString q.num else toString (q.num / 2) ++ ".5"
  | .posInf => "Infinity"
  | .negInf => "-Infinity"
  | .nan => "NaN"

/-- A `Rule` constructor that keeps the trigger and the effect of its description. -/
def exampleMkRule (desc : JSVal) : Rule :=
  ⟨none, partOf "trigger" desc, partOf "effect" desc, "If the trigger then the effect"⟩

/-- A rule description with a trigger and an effect. -/
def exampleRuleDesc : JSVal :=
  .obj [("trigger", .obj [("property", .obj [("name", .str "on")])]),
        ("effect", .obj [("type", .str "SetEffect"),
          ("property", .obj [("name", .str "level")]), ("value", .num "80")])]

/-- A document with a trigger block at (20, 30) and an effect block at (400, 130). -/
def exampleDom : Dom :=
  ⟨some "translate(20px, 30px)", some "translate(400px, 130px)", false, true⟩

/-- A screen with the example rule loaded and the connection hidden. -/
def exampleScreen : Screen :=
  ⟨some (exampleMkRule exampleRuleDesc), "", "", true, false, "", "", "", "", "", [],
    exampleDom⟩

/-- Collaborators for the examples: a rule area of 1000 by 600 pixels. -/
def exampleEnv : Env where
  numStr := exampleNumStr
  fetched := fun _ => exampleRuleDesc
  things := [⟨"Lamp", .obj []⟩]
  gatewayThings := [⟨"Lamp", .obj []⟩]
  areaRect := ⟨.finite 1000, .finite 600⟩
  mkRule := exampleMkRule
  byProperty := fun _ _ => true
  place := fun dom _ => { dom with propertyBlock := true }

/-- The example screen with the trigger block at (20, 300.5). -/
def fractionalScreen : Screen :=
  { exampleScreen with
    dom := ⟨some "translate(20px, 300.5px)", some "translate(400px, 130px)", false, true⟩ }

/-- The example screen with the trigger block at (9007199254740992, 30), which is
`2 ^ 53`, and the effect block at (401, 130). -/
def farScreen : Screen :=
  { exampleScreen with
    dom := ⟨some "translate(9007199254740992px, 30px)", some "translate(401px, 130px)",
      false, true⟩ }

end RuleScreen



/-! ## Theorems about `fromDescription` -/

section Factory

variable {Inst E : Type}

/-- Unfolding of `fromDescription` when the member read yields an effect class. -/
theorem fromDescription_of_cls (ctor : Ctor Inst E) (table : Table) (desc ty : JSVal)
    (key : String) (c : EffectClass)
    (hty : getField (E := E) "type" desc = .ok ty) (hkey : toStringJS (E := E) ty = .ok key)
    (hmem : getMember table key = some (.cls c)) :
    fromDescription ctor table desc =
      ⟨(ctor c desc table).1, [⟨c, desc⟩],
        match (ctor c desc table).2 with
        | .ok i => .ok (.made i)
        | .error e => .error (.raised e)⟩ := by
  unfold fromDescription
  simp only [hty, hkey, hmem]
  rcases hc : ctor c desc table with ⟨t, r⟩
  cases r <;> rfl

/-- Unfolding of `fromDescription` when the member read yields `undefined`. -/
theorem fromDescription_of_none (ctor : Ctor Inst E) (table : Table) (desc ty : JSVal)
    (key : String)
    (hty : getField (E := E) "type" desc = .ok ty) (hkey : toStringJS (E := E) ty = .ok key)
    (hmem : getMember table key = none) :
    fromDescription ctor table desc = ⟨table, [], .error (.error (unsupportedMessage key))⟩ := by
  unfold fromDescription
  simp only [hty, hkey, hmem]

/-- A failing property read throws a `TypeError`. -/
theorem getField_error (key : String) (v : JSVal) (e : JSError E)
    (h : getField key v = .error e) : ∃ w, e = .typeError w := by
  cases v with
  | undefined => simp only [getField, Except.error.injEq] at h; exact ⟨_, h.symm⟩
  | null => simp only [getField, Except.error.injEq] at h; exact ⟨_, h.symm⟩
  | bool b => simp [getField] at h
  | num c => simp [getField] at h
  | str s => simp [getField] at h
  | obj props =>
    simp only [getField] at h
    split at h <;> simp at h

/-- A failing string conversion throws a `TypeError`. -/
theorem toStringJS_error (v : JSVal) (e : JSError E)
    (h : toStringJS v = .error e) : ∃ w, e = .typeError w := by
  cases v with
  | undefined => simp [toStringJS] at h
  | null => simp [toStringJS] at h
  | bool b => simp [toStringJS] at h
  | num c => simp [toStringJS] at h
  | str s => simp [toStringJS] at h
  | obj props =>
    simp only [toStringJS] at h
    split at h
    · simp only [Except.error.injEq] at h; exact ⟨_, h.symm⟩
    · simp at h

/-- The outcome is the error of line 23 only on the branch of line 22. -/
theorem outcome_error_inv (ctor : Ctor Inst E) (table : Table) (desc : JSVal) (m : String)
    (h : (fromDescription ctor table desc).outcome = .error (.error m)) :
    ∃ ty key, getField (E := E) "type" desc = .ok ty ∧ toStringJS (E := E) ty = .ok key ∧
      getMember table key = none ∧ m = unsupportedMessage key := by
  unfold fromDescription at h
  cases hty : getField (E := E) "type" desc with
  | error e =>
    obtain ⟨w, rfl⟩ := getField_error _ _ _ hty
    simp [hty] at h
  | ok ty =>
    cases hkey : toStringJS (E := E) ty with
    | error e =>
      obtain ⟨w, rfl⟩ := toStringJS_error _ _ hkey
      simp [hty, hkey] at h
    | ok key =>
      simp only [hty, hkey] at h
      cases hmem : getMember table key with
      | none =>
        simp only [hmem] at h
        refine ⟨ty, key, rfl, hkey, hmem, ?_⟩
        simpa using h.symm
      | some b =>
        simp only [hmem] at h
        cases b with
        | cls c =>
          simp only at h
          rcases hc : ctor c desc table with ⟨t, r⟩
          rw [hc] at h
          cases r <;> simp at h
        | objectCtor => simp at h
        | builtinMethod n => simp at h
        | objectPrototype => simp at h

/-- The offending tag is what follows the fixed text. -/
theorem offendingTag_unsupportedMessage (s : String) :
    offendingTag (unsupportedMessage s) = s := by
  unfold offendingTag unsupportedMessage
  simp [String.toList, String.length, List.asString]

/-- The own keys of the table of the source, each bound to the class of the same name. -/
theorem ownLookup_effects_cases (tag : String) (c : EffectClass)
    (h : ownLookup tag effects = some c) :
    c.className = tag ∧ tag ∈ ["Effect", "ActionEffect", "SetEffect", "PulseEffect"] := by
  simp only [effects, ownLookup] at h
  split_ifs at h with h1 h2 h3 h4
  · cases h; subst h1; simp [EffectClass.className]
  · cases h; subst h2; simp [EffectClass.className]
  · cases h; subst h3; simp [EffectClass.className]
  · cases h; subst h4; simp [EffectClass.className]

/-- No effect class is inherited from `Object.prototype`. -/
theorem objectPrototypeGet_ne_cls (key : String) (c : EffectClass) :
    objectPrototypeGet key ≠ some (.cls c) := by
  unfold objectPrototypeGet
  split_ifs <;> simp

/-- C1 (the code at the failing inputs): with the table of the source, the description
whose `type` is the string `constructor` is not rejected: the member read finds the
inherited function `Object`, no effect class is invoked and the description itself is
returned. For `toString` and `__proto__` the read finds an inherited value that is no
constructor and a `TypeError` is thrown rather than the error of line 23. -/
theorem fromDescription_inherited_key (ctor : Ctor Inst E) :
    (fromDescription ctor effects (.obj [("type", .str "constructor")])).outcome
        = .ok (.given (.obj [("type", .str "constructor")])) ∧
    (fromDescription ctor effects (.obj [("type", .str "constructor")])).calls = [] ∧
    (fromDescription ctor effects (.obj [("type", .str "toString")])).outcome
        = .error (.typeError "EffectClass is not a constructor") ∧
    (fromDescription ctor effects (.obj [("type", .str "__proto__")])).outcome
        = .error (.typeError "EffectClass is not a constructor") :=
  ⟨rfl, rfl, rfl, rfl⟩

/-- C2: for a description whose `type` is one of the tags ActionEffect, SetEffect,
PulseEffect, `fromDescription` invokes the class registered under that tag exactly once,
with the description itself as argument, returns the instance that constructor made (or
passes on what it threw), and does not raise the error of line 23. -/
theorem fromDescription_registered (ctor : Ctor Inst E) (desc : JSVal) (tag : String)
    (hty : getField (E := E) "type" desc = .ok (.str tag))
    (htag : tag = "ActionEffect" ∨ tag = "SetEffect" ∨ tag = "PulseEffect") :
    ∃ c, ownLookup tag effects = some c ∧ c.className = tag ∧
      (fromDescription ctor effects desc).calls = [⟨c, desc⟩] ∧
      (fromDescription ctor effects desc).outcome =
        (match (ctor c desc effects).2 with
          | .ok i => .ok (.made i)
          | .error e => .error (.raised e)) ∧
      ∀ m, (fromDescription ctor effects desc).outcome ≠ .error (.error m) := by
  have hown : ∃ c, ownLookup tag effects = some c := by
    rcases htag with h | h | h <;> subst h
    · exact ⟨.ActionEffect, by decide⟩
    · exact ⟨.SetEffect, by decide⟩
    · exact ⟨.PulseEffect, by decide⟩
  obtain ⟨c, hc⟩ := hown
  have hmem : getMember effects tag = some (.cls c) := by simp [getMember, hc]
  have hrun := fromDescription_of_cls ctor effects desc (.str tag) tag c hty rfl hmem
  refine ⟨c, hc, (ownLookup_effects_cases tag c hc).1, ?_, ?_, ?_⟩
  · rw [hrun]
  · rw [hrun]
  · intro m hm
    rw [hrun] at hm
    cases hr : (ctor c desc effects).2 <;> simp [hr] at hm

/-- C2 at a concrete input: a SetEffect description. -/
theorem fromDescription_registered_witness :
    ∃ c, ownLookup "SetEffect" effects = some c ∧ c.className = "SetEffect" ∧
      (fromDescription recordCtor effects
        (.obj [("type", .str "SetEffect"), ("value", .bool true)])).calls
        = [⟨c, .obj [("type", .str "SetEffect"), ("value", .bool true)]⟩] ∧
      (fromDescription recordCtor effects
        (.obj [("type", .str "SetEffect"), ("value", .bool true)])).outcome =
        (match (recordCtor c (.obj [("type", .str "SetEffect"), ("value", .bool true)])
            effects).2 with
          | .ok i => .ok (.made i)
          | .error e => .error (.raised e)) ∧
      ∀ m, (fromDescription recordCtor effects
        (.obj [("type", .str "SetEffect"), ("value", .bool true)])).outcome
          ≠ .error (.error m) :=
  fromDescription_registered recordCtor
    (.obj [("type", .str "SetEffect"), ("value", .bool true)]) "SetEffect" rfl
    (Or.inr (Or.inl rfl))

/-- Whenever `fromDescription` fails with the error of line 23, the message is the fixed
text followed by the string form of `desc.type`; for a string tag the tag is what follows
the fixed text, and two different string tags give two different messages. -/
theorem fromDescription_own_error_message (ctor : Ctor Inst E) (table : Table)
    (desc : JSVal) (m : String)
    (h : (fromDescription ctor table desc).outcome = .error (.error m)) :
    ∃ ty s, getField (E := E) "type" desc = .ok ty ∧ toStringJS (E := E) ty = .ok s ∧
      m = "Unsupported or invalid effect type:" ++ s ∧
      (∀ tag, ty = .str tag → offendingTag m = tag) ∧
      (∀ desc2 m2 tag tag2, ty = .str tag →
        getField (E := E) "type" desc2 = .ok (.str tag2) →
        (fromDescription ctor table desc2).outcome = .error (.error m2) →
        tag ≠ tag2 → m ≠ m2) := by
  obtain ⟨ty, key, hty, hkey, -, hm⟩ := outcome_error_inv ctor table desc m h
  refine ⟨ty, key, hty, hkey, hm, ?_, ?_⟩
  · intro tag htag
    subst htag
    simp only [toStringJS, Except.ok.injEq] at hkey
    rw [hm, offendingTag_unsupportedMessage, hkey]
  · intro desc2 m2 tag tag2 htag hty2 h2 hne heq
    obtain ⟨ty2, key2, hty2', hkey2, -, hm2⟩ := outcome_error_inv ctor table desc2 m2 h2
    rw [hty2] at hty2'
    cases hty2'
    subst htag
    simp only [toStringJS, Except.ok.injEq] at hkey hkey2
    apply hne
    have := congrArg offendingTag heq
    rw [hm, hm2, offendingTag_unsupportedMessage, offendingTag_unsupportedMessage] at this
    rw [hkey, hkey2, this]

/-- C3 (the code at the failing inputs): the string tags `toString` and `valueOf` are no
own keys of the table, yet the member read finds the inherited methods of those names, and
`fromDescription` fails for both descriptions with one and the same `TypeError`, which
carries neither tag; the failure is never the error of line 23. -/
theorem fromDescription_tagless_error (ctor : Ctor Inst E) :
    ownLookup "toString" effects = none ∧ ownLookup "valueOf" effects = none ∧
    (fromDescription ctor effects (.obj [("type", .str "toString")])).outcome
        = .error (.typeError "EffectClass is not a constructor") ∧
    (fromDescription ctor effects (.obj [("type", .str "valueOf")])).outcome
        = .error (.typeError "EffectClass is not a constructor") ∧
    (∀ m, (fromDescription ctor effects (.obj [("type", .str "toString")])).outcome
        ≠ .error (.error m)) ∧
    (∀ m, (fromDescription ctor effects (.obj [("type", .str "valueOf")])).outcome
        ≠ .error (.error m)) := by
  refine ⟨rfl, rfl, rfl, rfl, ?_, ?_⟩ <;> intro m h <;> cases h

/-- C4 (counterexample): the table registers the base class under the tag `Effect`, so a
description with that tag is handed to the Effect constructor and its instance is
returned; no error is raised. -/
theorem fromDescription_base_effect_accepted :
    (fromDescription recordCtor effects (.obj [("type", .str "Effect")])).outcome
      = .ok (.made ⟨.Effect, .obj [("type", .str "Effect")]⟩) :=
  rfl

/-- The four own keys of the table of the source. -/
theorem ownLookup_effects_of_mem (tag : String)
    (h : tag ∈ ["Effect", "ActionEffect", "SetEffect", "PulseEffect"]) :
    ∃ c, ownLookup tag effects = some c := by
  simp only [List.mem_cons, List.mem_singleton, List.not_mem_nil, or_false] at h
  rcases h with h | h | h | h <;> subst h
  · exact ⟨.Effect, by decide⟩
  · exact ⟨.ActionEffect, by decide⟩
  · exact ⟨.SetEffect, by decide⟩
  · exact ⟨.PulseEffect, by decide⟩

/-- C4 (amended): the string tags that `fromDescription` dispatches to an effect class
are exactly Effect, ActionEffect, SetEffect and PulseEffect. For each of them the class of
the same name is invoked once, on the description itself, the outcome is the instance that
constructor made (or what it threw), and the error of line 23 is not raised. For every
other string tag no effect class is invoked and no instance is returned. -/
theorem fromDescription_dispatch_tags (ctor : Ctor Inst E) (desc : JSVal) (tag : String)
    (hty : getField (E := E) "type" desc = .ok (.str tag)) :
    (tag ∈ ["Effect", "ActionEffect", "SetEffect", "PulseEffect"] →
      ∃ c, ownLookup tag effects = some c ∧ c.className = tag ∧
        (fromDescription ctor effects desc).calls = [⟨c, desc⟩] ∧
        (fromDescription ctor effects desc).outcome =
          (match (ctor c desc effects).2 with
            | .ok i => .ok (.made i)
            | .error e => .error (.raised e)) ∧
        ∀ m, (fromDescription ctor effects desc).outcome ≠ .error (.error m)) ∧
    (tag ∉ ["Effect", "ActionEffect", "SetEffect", "PulseEffect"] →
      (fromDescription ctor effects desc).calls = [] ∧
      ∀ i, (fromDescription ctor effects desc).outcome ≠ .ok (.made i)) ∧
    ((∃ c, (fromDescription ctor effects desc).calls = [⟨c, desc⟩] ∧ c.className = tag) ↔
      tag ∈ ["Effect", "ActionEffect", "SetEffect", "PulseEffect"]) := by
  have hin : tag ∈ ["Effect", "ActionEffect", "SetEffect", "PulseEffect"] →
      ∃ c, ownLookup tag effects = some c ∧ c.className = tag ∧
        (fromDescription ctor effects desc).calls = [⟨c, desc⟩] ∧
        (fromDescription ctor effects desc).outcome =
          (match (ctor c desc effects).2 with
            | .ok i => .ok (.made i)
            | .error e => .error (.raised e)) ∧
        ∀ m, (fromDescription ctor effects desc).outcome ≠ .error (.error m) := by
    intro hmem
    obtain ⟨c, hc⟩ := ownLookup_effects_of_mem tag hmem
    have hmemb : getMember effects tag = some (.cls c) := by simp [getMember, hc]
    have hrun := fromDescription_of_cls ctor effects desc (.str tag) tag c hty rfl hmemb
    refine ⟨c, hc, (ownLookup_effects_cases tag c hc).1, by rw [hrun], by rw [hrun], ?_⟩
    intro m hm
    rw [hrun] at hm
    cases hr : (ctor c desc effects).2 <;> simp [hr] at hm
  have hout : tag ∉ ["Effect", "ActionEffect", "SetEffect", "PulseEffect"] →
      (fromDescription ctor effects desc).calls = [] ∧
      ∀ i, (fromDescription ctor effects desc).outcome ≠ .ok (.made i) := by
    intro hnot
    have hown : ownLookup tag effects = none := by
      cases h : ownLookup tag effects with
      | none => rfl
      | some c => exact absurd (ownLookup_effects_cases tag c h).2 hnot
    cases hp : objectPrototypeGet tag with
    | none =>
      have hmemb : getMember effects tag = none := by simp [getMember, hown, hp]
      rw [fromDescription_of_none ctor effects desc (.str tag) tag hty rfl hmemb]
      exact ⟨rfl, fun i h => by cases h⟩
    | some b =>
      have hmemb : getMember effects tag = some b := by simp [getMember, hown, hp]
      cases b with
      | cls c => exact absurd hp (objectPrototypeGet_ne_cls tag c)
      | objectCtor =>
        refine ⟨by simp only [fromDescription, hty, toStringJS, hmemb], ?_⟩
        intro i h
        simp only [fromDescription, hty, toStringJS, hmemb] at h
        cases desc <;> simp [newObject] at h
      | builtinMethod n =>
        refine ⟨by simp only [fromDescription, hty, toStringJS, hmemb], ?_⟩
        intro i h
        simp only [fromDescription, hty, toStringJS, hmemb] at h
        cases h
      | objectPrototype =>
        refine ⟨by simp only [fromDescription, hty, toStringJS, hmemb], ?_⟩
        intro i h
        simp only [fromDescription, hty, toStringJS, hmemb] at h
        cases h
  refine ⟨hin, hout, ⟨fun ⟨c, hc, _⟩ => ?_, fun hmem => ?_⟩⟩
  · by_contra hnot
    rw [(hout hnot).1] at hc
    cases hc
  · obtain ⟨c, _, hname, hcalls, _⟩ := hin hmem
    exact ⟨c, hcalls, hname⟩

/-- C4 (amended) at a concrete input: the tag `Effect` reaches the Effect constructor and
its instance is returned. -/
theorem fromDescription_dispatch_tags_witness :
    getField (E := Empty) "type" (.obj [("type", .str "Effect")]) = .ok (.str "Effect") ∧
    ∃ c, ownLookup "Effect" effects = some c ∧ c.className = "Effect" ∧
      (fromDescription recordCtor effects (.obj [("type", .str "Effect")])).calls
        = [⟨c, .obj [("type", .str "Effect")]⟩] ∧
      (fromDescription recordCtor effects (.obj [("type", .str "Effect")])).outcome =
        (match (recordCtor c (.obj [("type", .str "Effect")]) effects).2 with
          | .ok i => .ok (.made i)
          | .error e => .error (.raised e)) ∧
      ∀ m, (fromDescription recordCtor effects (.obj [("type", .str "Effect")])).outcome
        ≠ .error (.error m) :=
  ⟨rfl, (fromDescription_dispatch_tags recordCtor (.obj [("type", .str "Effect")]) "Effect"
    rfl).1 (by decide)⟩

/-- What one call of `fromDescription` does to the table and with its argument: either
no constructor runs and the table is the one it started from, or one constructor runs,
on the description itself, and the table is the one that constructor left. -/
theorem fromDescription_steps (ctor : Ctor Inst E) (table : Table) (desc : JSVal) :
    ((fromDescription ctor table desc).calls = [] ∧
        (fromDescription ctor table desc).effects = table) ∨
    ∃ c, (fromDescription ctor table desc).calls = [⟨c, desc⟩] ∧
        (fromDescription ctor table desc).effects = (ctor c desc table).1 := by
  cases hty : getField (E := E) "type" desc with
  | error e => exact Or.inl (by simp only [fromDescription, hty, and_self])
  | ok ty =>
    cases hkey : toStringJS (E := E) ty with
    | error e => exact Or.inl (by simp only [fromDescription, hty, hkey, and_self])
    | ok key =>
      cases hmem : getMember table key with
      | none => exact Or.inl (by simp only [fromDescription, hty, hkey, hmem, and_self])
      | some b =>
        cases b with
        | cls c =>
          refine Or.inr ⟨c, ?_⟩
          rw [fromDescription_of_cls ctor table desc ty key c hty hkey hmem]
          exact ⟨rfl, rfl⟩
        | objectCtor => exact Or.inl (by simp only [fromDescription, hty, hkey, hmem, and_self])
        | builtinMethod n =>
          exact Or.inl (by simp only [fromDescription, hty, hkey, hmem, and_self])
        | objectPrototype =>
          exact Or.inl (by simp only [fromDescription, hty, hkey, hmem, and_self])

/-- C5: `fromDescription` writes neither to the table nor to the description. Its own
steps leave the table as it was and hand the description on as it came; with effect
class constructors that do not write to the table, the table is the same after every
call, failed or not, and after every sequence of calls. -/
theorem fromDescription_frame (ctor : Ctor Inst E)
    (hctor : ∀ c d t, (ctor c d t).1 = t) (table : Table) :
    (∀ desc, (fromDescription ctor table desc).effects = table ∧
      (∀ call ∈ (fromDescription ctor table desc).calls, call.arg = desc) ∧
      ((fromDescription ctor table desc).calls = [] ∨
        ∃ c, (fromDescription ctor table desc).calls = [⟨c, desc⟩] ∧
          (fromDescription ctor table desc).effects = (ctor c desc table).1)) ∧
    ∀ descs, fromDescriptions ctor table descs = table := by
  have hone : ∀ t desc, (fromDescription ctor t desc).effects = t := by
    intro t desc
    rcases fromDescription_steps ctor t desc with ⟨_, h⟩ | ⟨c, _, h⟩
    · exact h
    · rw [h, hctor]
  refine ⟨fun desc => ⟨hone table desc, ?_, ?_⟩, ?_⟩
  · intro call hcall
    rcases fromDescription_steps ctor table desc with ⟨h, _⟩ | ⟨c, h, _⟩
    · rw [h] at hcall; cases hcall
    · rw [h] at hcall
      simp only [List.mem_singleton] at hcall
      rw [hcall]
  · rcases fromDescription_steps ctor table desc with ⟨h, _⟩ | ⟨c, h, h2⟩
    · exact Or.inl h
    · exact Or.inr ⟨c, h, h2⟩
  · intro descs
    induction descs with
    | nil => rfl
    | cons d ds ih => simp only [fromDescriptions, hone, ih]

/-- C5 at a concrete input: the table of the source and the recording constructor. -/
theorem fromDescription_frame_witness :
    (∀ desc, (fromDescription recordCtor effects desc).effects = effects ∧
      (∀ call ∈ (fromDescription recordCtor effects desc).calls, call.arg = desc) ∧
      ((fromDescription recordCtor effects desc).calls = [] ∨
        ∃ c, (fromDescription recordCtor effects desc).calls = [⟨c, desc⟩] ∧
          (fromDescription recordCtor effects desc).effects
            = (recordCtor c desc effects).1)) ∧
    ∀ descs, fromDescriptions recordCtor effects descs = effects :=
  fromDescription_frame recordCtor (fun _ _ _ => rfl) effects

end Factory

/-- C6: for every tag registered in the table of the source and every description with
that tag and valid fields, `fromDescription` returns an instance whose `toDescription()`
carries the same tag in `type`. -/
theorem fromDescription_toDescription_tag (desc : JSVal) (tag : String) (c : EffectClass)
    (hreg : ownLookup tag effects = some c)
    (hty : getField (E := EffectError) "type" desc = .ok (.str tag))
    (hvalid : validFields c desc = true) :
    ∃ i, (fromDescription specCtor effects desc).outcome = .ok (.made i) ∧
      getField (E := EffectError) "type" i.toDescription = .ok (.str tag) := by
  have hmem : getMember effects tag = some (.cls c) := by simp [getMember, hreg]
  have hrun := fromDescription_of_cls specCtor effects desc (.str tag) tag c hty rfl hmem
  refine ⟨⟨c, desc⟩, ?_, ?_⟩
  · rw [hrun]
    simp [specCtor, hvalid]
  · simp [EffectInstance.toDescription, getField, ownLookup,
      (ownLookup_effects_cases tag c hreg).1]

/-- C6 at a concrete input: a PulseEffect description with its three fields. -/
theorem fromDescription_toDescription_tag_witness :
    ∃ i, (fromDescription specCtor effects
        (.obj [("type", .str "PulseEffect"), ("property", .obj [("name", .str "on")]),
          ("value", .bool true), ("duration", .num "500")])).outcome = .ok (.made i) ∧
      getField (E := EffectError) "type" i.toDescription = .ok (.str "PulseEffect") :=
  fromDescription_toDescription_tag
    (.obj [("type", .str "PulseEffect"), ("property", .obj [("name", .str "on")]),
      ("value", .bool true), ("duration", .num "500")])
    "PulseEffect" .PulseEffect rfl rfl rfl




/-! ## Theorems about numbers -/

/-- A whole number rounds to itself. -/
theorem roundHalfEven_intCast (z : ℤ) : roundHalfEven (z : ℚ) = z := by
  simp [roundHalfEven]

/-- A number that is a whole multiple of the spacing around it, below the overflow
threshold, is a binary64 value. -/
theorem roundDouble_of_int_quot (q : ℚ) (z : ℤ) (hz : q / ulpOf q = z)
    (hlt : |q| < (2 : ℚ) ^ 1024) : roundDouble q = .finite q := by
  have hpos : (0 : ℚ) < ulpOf q := by unfold ulpOf; positivity
  have hq : (z : ℚ) * ulpOf q = q := by
    rw [← hz]; field_simp
  unfold roundDouble
  by_cases h0 : q = 0
  · simp [h0]
  · rw [if_neg h0, hz, roundHalfEven_intCast, hq]
    have h1 : ¬ (2 : ℚ) ^ 1024 ≤ q := fun h => absurd (lt_of_le_of_lt (le_trans h (le_abs_self q)) hlt) (lt_irrefl _)
    have h2 : ¬ q ≤ -(2 : ℚ) ^ 1024 := by
      intro h
      have : (2 : ℚ) ^ 1024 ≤ |q| := by
        have := neg_le_abs q
        linarith
      exact absurd (lt_of_le_of_lt this hlt) (lt_irrefl _)
    rw [if_neg h1, if_neg h2]


/-- The whole numbers and the halves `k / 2` with `|k|` up to `2 ^ 53` are binary64
values. -/
theorem roundDouble_exact (k : ℤ) (j : ℕ) (hj : j ≤ 1) (hk : |k| ≤ 2 ^ 53) :
    roundDouble ((k : ℚ) / 2 ^ j) = .finite ((k : ℚ) / 2 ^ j) := by
  by_cases hk0 : k = 0
  · subst hk0
    simp [roundDouble]
  have h2 : (1 : ℚ) < 2 := by norm_num
  have h2ne : (2 : ℚ) ≠ 0 := by norm_num
  set q : ℚ := (k : ℚ) / 2 ^ j with hqdef
  have hkq : (1 : ℚ) ≤ |(k : ℚ)| := by
    have : (1 : ℤ) ≤ |k| := Int.one_le_abs hk0
    exact_mod_cast this
  have hkq2 : |(k : ℚ)| ≤ 2 ^ 53 := by exact_mod_cast hk
  have habs : |q| = |(k : ℚ)| / 2 ^ j := by
    rw [hqdef, abs_div, abs_of_pos (by positivity : (0 : ℚ) < 2 ^ j)]
  have hqpos : 0 < |q| := by rw [habs]; positivity
  have hq0 : q ≠ 0 := abs_pos.mp hqpos
  set L := Int.log 2 |q| with hL
  have hlow : (2 : ℚ) ^ L ≤ |q| := Int.zpow_log_le_self (by norm_num) hqpos
  have hhigh : |q| < (2 : ℚ) ^ (L + 1) := Int.lt_zpow_succ_log_self (by norm_num) |q|
  have hjpow : (2 : ℚ) ^ j ≤ 2 := by
    interval_cases j <;> norm_num
  have hqge : (2 : ℚ) ^ (-1 : ℤ) ≤ |q| := by
    rw [habs, le_div_iff₀ (by positivity)]
    calc (2 : ℚ) ^ (-1 : ℤ) * 2 ^ j ≤ 2 ^ (-1 : ℤ) * 2 := by gcongr
      _ = 1 := by norm_num
      _ ≤ _ := hkq
  have hqle : |q| ≤ (2 : ℚ) ^ ((53 : ℤ) - j) := by
    rw [habs, zpow_sub₀ h2ne, zpow_natCast]
    gcongr
    exact_mod_cast hkq2
  have hLge : -1 ≤ L := by
    have := lt_of_le_of_lt hqge hhigh
    rw [zpow_lt_zpow_iff_right₀ h2] at this
    omega
  have hLle : L ≤ 53 - j := by
    have := le_trans hlow hqle
    rwa [zpow_le_zpow_iff_right₀ h2] at this
  have hulp : ulpOf q = (2 : ℚ) ^ (L - 52) := by
    unfold ulpOf
    rw [max_eq_left (by omega)]
  have hquot : q / ulpOf q = (k : ℚ) * (2 : ℚ) ^ ((52 : ℤ) - L - j) := by
    rw [hulp, div_eq_iff (by positivity), mul_assoc, ← zpow_add₀ h2ne]
    have : (52 : ℤ) - L - j + (L - 52) = -(j : ℤ) := by ring
    rw [this, zpow_neg, zpow_natCast, hqdef, div_eq_mul_inv]
  have hlt : |q| < (2 : ℚ) ^ 1024 := by
    refine lt_of_le_of_lt hqle ?_
    have : (2 : ℚ) ^ ((53 : ℤ) - j) ≤ 2 ^ (53 : ℤ) := by
      rw [zpow_le_zpow_iff_right₀ h2]; omega
    refine lt_of_le_of_lt this ?_
    norm_num
  by_cases hn : (0 : ℤ) ≤ 52 - L - j
  · obtain ⟨m, hm⟩ := Int.eq_ofNat_of_zero_le hn
    refine roundDouble_of_int_quot q (k * 2 ^ m) ?_ hlt
    rw [hquot, hm, zpow_natCast]
    push_cast
    rfl
  · have hLeq : L = 53 - j := by omega
    have hkabs : |(k : ℚ)| = 2 ^ 53 := by
      refine le_antisymm hkq2 ?_
      have h1 := hlow
      rw [habs, hLeq, zpow_sub₀ h2ne, zpow_natCast] at h1
      have h3 := (div_le_div_iff_of_pos_right (by positivity : (0 : ℚ) < 2 ^ j)).mp h1
      exact_mod_cast h3
    have hexp : (52 : ℤ) - L - j = -1 := by omega
    rcases abs_eq (by positivity : (0 : ℚ) ≤ 2 ^ 53) |>.mp hkabs with h | h
    · refine roundDouble_of_int_quot q (2 ^ 52) ?_ hlt
      rw [hquot, hexp, h]; norm_num
    · refine roundDouble_of_int_quot q (-2 ^ 52) ?_ hlt
      rw [hquot, hexp, h]; norm_num

/-- The whole numbers up to `2 ^ 53` in magnitude are binary64 values. -/
theorem roundDouble_int (k : ℤ) (hk : |k| ≤ 2 ^ 53) : roundDouble (k : ℚ) = .finite k := by
  simpa using roundDouble_exact k 0 (by norm_num) hk


/-- The spacing around a number between two consecutive powers of two. -/
theorem ulpOf_of_bounds (q : ℚ) (e : ℤ) (hlow : (2 : ℚ) ^ e ≤ |q|)
    (hhigh : |q| < (2 : ℚ) ^ (e + 1)) (he : -1022 ≤ e) :
    ulpOf q = (2 : ℚ) ^ (e - 52) := by
  have hpos : 0 < |q| := lt_of_lt_of_le (by positivity) hlow
  have h1 : e ≤ Int.log 2 |q| := (Int.zpow_le_iff_le_log (by norm_num) hpos).mp (by exact_mod_cast hlow)
  have h2 : Int.log 2 |q| < e + 1 := (Int.lt_zpow_iff_log_lt (by norm_num) hpos).mp (by exact_mod_cast hhigh)
  have : Int.log 2 |q| = e := by omega
  unfold ulpOf
  rw [this, max_eq_left he]

/-- A sum of whole numbers that stays within `2 ^ 53` is computed exactly. -/
theorem add_finite_int (a b : ℤ) (h : |a + b| ≤ 2 ^ 53) :
    JSNum.add (.finite a) (.finite b) = .finite ((a : ℚ) + b) := by
  have := roundDouble_int (a + b) h
  simpa [JSNum.add] using this

/-- A difference of whole numbers that stays within `2 ^ 53` is computed exactly. -/
theorem sub_finite_int (a b : ℤ) (h : |a - b| ≤ 2 ^ 53) :
    JSNum.sub (.finite a) (.finite b) = .finite ((a : ℚ) - b) := by
  have := roundDouble_int (a - b) h
  simpa [JSNum.sub] using this

/-- Halving a whole number within `2 ^ 53` is exact. -/
theorem half_finite_int (a : ℤ) (h : |a| ≤ 2 ^ 53) :
    JSNum.half (.finite a) = .finite ((a : ℚ) / 2) := by
  have := roundDouble_exact a 1 (by norm_num) h
  simpa [JSNum.half] using this

namespace RuleScreen

/-! ## Theorems about the rule screen -/

/-- A literal is stripped from the front of what starts with it. -/
theorem stripLiteral_append (lit rest : List Char) :
    stripLiteral lit (lit ++ rest) = some rest := by
  induction lit with
  | nil => cases rest <;> rfl
  | cons l ls ih => simp [stripLiteral, ih]

/-- A run of characters of one class, followed by a character outside it, is split off
whole. -/
theorem span_run (p : Char → Bool) (run : List Char) (c : Char) (rest : List Char)
    (hrun : ∀ d ∈ run, p d = true) (hc : p c = false) :
    (run ++ c :: rest).span p = (run, c :: rest) := by
  rw [List.span_eq_take_drop]
  induction run with
  | nil => simp [hc]
  | cons d ds ih =>
    have hd : p d = true := hrun d (List.mem_cons_self _ _)
    have := ih (fun e he => hrun e (List.mem_cons_of_mem _ he))
    simp only [Prod.mk.injEq] at this
    simp only [List.cons_append, hd, List.takeWhile_cons_of_pos, List.dropWhile_cons_of_pos,
      Prod.mk.injEq, List.cons.injEq, true_and]
    exact this

/-- The decimal digit characters and their values. -/
theorem digitChar_spec (k : ℕ) (hk : k < 10) :
    (Nat.digitChar k).isDigit = true ∧ (Nat.digitChar k).toNat - 48 = k := by
  interval_cases k <;> exact ⟨by decide, by decide⟩

/-- Appending one digit to a run multiplies its value by ten and adds the digit. -/
theorem digitsValue_append_singleton (ds : List Char) (d : Char) :
    digitsValue (ds ++ [d]) = 10 * digitsValue ds + (d.toNat - 48) := by
  simp [digitsValue, List.foldl_append]

/-- The decimal digits of `n`: a non-empty run of digit characters whose value is `n`. -/
theorem toDigitsCore_spec (fuel : ℕ) : ∀ (n : ℕ) (ds : List Char), n < fuel →
    ∃ run, Nat.toDigitsCore 10 fuel n ds = run ++ ds ∧ run ≠ [] ∧
      (∀ c ∈ run, Char.isDigit c = true) ∧ digitsValue run = n := by
  induction fuel with
  | zero => intro n ds h; omega
  | succ fuel ih =>
    intro n ds hn
    obtain ⟨hdig, hval⟩ := digitChar_spec (n % 10) (Nat.mod_lt _ (by norm_num))
    by_cases h0 : n / 10 = 0
    · refine ⟨[Nat.digitChar (n % 10)], ?_, by simp, ?_, ?_⟩
      · simp [Nat.toDigitsCore, h0]
      · intro c hc
        simp only [List.mem_singleton] at hc
        rw [hc]; exact hdig
      · have : digitsValue [Nat.digitChar (n % 10)] = (Nat.digitChar (n % 10)).toNat - 48 := by
          simp [digitsValue]
        rw [this, hval]
        omega
    · obtain ⟨run, hrun, -, hall, hv⟩ := ih (n / 10) (Nat.digitChar (n % 10) :: ds) (by omega)
      refine ⟨run ++ [Nat.digitChar (n % 10)], ?_, by simp, ?_, ?_⟩
      · simp [Nat.toDigitsCore, h0, hrun]
      · intro c hc
        rcases List.mem_append.mp hc with h | h
        · exact hall c h
        · simp only [List.mem_singleton] at h
          rw [h]; exact hdig
      · rw [digitsValue_append_singleton, hv, hval]
        omega

/-- The string form of a natural number is a non-empty run of digits whose value it is. -/
theorem toString_nat_spec (n : ℕ) :
    (toString n).toList ≠ [] ∧ (∀ c ∈ (toString n).toList, Char.isDigit c = true) ∧
      digitsValue (toString n).toList = n := by
  obtain ⟨run, hrun, hne, hall, hv⟩ := toDigitsCore_spec (n + 1) n [] (Nat.lt_succ_self n)
  have : (toString n).toList = run := by
    show (Nat.repr n).data = run
    simp [Nat.repr, Nat.toDigits, hrun, List.asString]
  rw [this]
  exact ⟨hne, hall, hv⟩

/-- The regular expression matches a canonical `translate` at its front and captures the
two digit runs. -/
theorem matchAt_translate (d1 d2 : List Char) (h1 : d1 ≠ []) (h2 : d2 ≠ [])
    (hd1 : ∀ c ∈ d1, Char.isDigit c = true) (hd2 : ∀ c ∈ d2, Char.isDigit c = true) :
    matchAt ("translate(".toList ++ (d1 ++ ("px, ".toList ++ (d2 ++ "px)".toList))))
      = some (d1, d2) := by
  obtain ⟨a, as, rfl⟩ := List.exists_cons_of_ne_nil h1
  obtain ⟨b, bs, rfl⟩ := List.exists_cons_of_ne_nil h2
  have hb : Char.isDigit b = true := hd2 b (List.mem_cons_self _ _)
  have hbsp : (fun c : Char => decide (c = ' ')) b = false := by
    have : b ≠ ' ' := by
      intro h
      rw [h] at hb
      exact absurd hb (by decide)
    simpa using this
  have s1 : (a :: as ++ ("px, ".toList ++ (b :: bs ++ "px)".toList))).span Char.isDigit
      = (a :: as, 'p' :: ("x, ".toList ++ (b :: bs ++ "px)".toList))) :=
    span_run Char.isDigit (a :: as) 'p' _ hd1 (by decide)
  have s2 : ([' '] ++ b :: (bs ++ "px)".toList)).span (fun c : Char => decide (c = ' '))
      = ([' '], b :: (bs ++ "px)".toList)) :=
    span_run _ [' '] b _ (by simp) hbsp
  have s3 : (b :: bs ++ 'p' :: "x)".toList).span Char.isDigit
      = (b :: bs, 'p' :: "x)".toList) :=
    span_run Char.isDigit (b :: bs) 'p' _ hd2 (by decide)
  unfold matchAt
  rw [stripLiteral_append]
  simp only [s1]
  have e1 : stripLiteral "px,".toList ('p' :: ("x, ".toList ++ (b :: bs ++ "px)".toList)))
      = some ([' '] ++ b :: (bs ++ "px)".toList)) := rfl
  simp only [e1, s2]
  have e2 : b :: (bs ++ "px)".toList) = b :: bs ++ 'p' :: "x)".toList := rfl
  simp only [e2, s3]
  rfl

/-- The number read from the decimal form of a natural number up to `2 ^ 53` is that
number. -/
theorem parseFloat_toString (n : ℕ) (hn : n ≤ 2 ^ 53) :
    parseFloat (toString n).toList = .finite n := by
  unfold parseFloat
  rw [(toString_nat_spec n).2.2]
  have := roundDouble_int (n : ℤ) (by
    rw [abs_of_nonneg (by positivity)]; exact_mod_cast hn)
  simpa using this

/-- A block placed at whole pixel offsets between 0 and `2 ^ 53` is read back by
`transformToCoords`. -/
theorem transformToCoords_translateCss (x y : ℕ) (hx : x ≤ 2 ^ 53) (hy : y ≤ 2 ^ 53) :
    transformToCoords (translateCss x y) = .ok ⟨.finite x, .finite y⟩ := by
  obtain ⟨hx1, hdx, -⟩ := toString_nat_spec x
  obtain ⟨hy1, hdy, -⟩ := toString_nat_spec y
  have hlist : (translateCss x y).toList =
      "translate(".toList ++ ((toString x).toList ++
        ("px, ".toList ++ ((toString y).toList ++ "px)".toList))) := by
    simp [translateCss, String.toList, String.data_append]
  have hm := matchAt_translate _ _ hx1 hy1 hdx hdy
  have hr : regexMatch (translateCss x y).toList
      = some ((toString x).toList, (toString y).toList) := by
    rw [hlist]
    have : "translate(".toList ++ ((toString x).toList ++
        ("px, ".toList ++ ((toString y).toList ++ "px)".toList)))
        = 't' :: ("ranslate(".toList ++ ((toString x).toList ++
        ("px, ".toList ++ ((toString y).toList ++ "px)".toList)))) := rfl
    rw [this] at hm ⊢
    simp only [regexMatch, hm]
  simp only [transformToCoords, hr, parseFloat_toString x hx, parseFloat_toString y hy]

/-- After `showConnection` the connection is visible, whether or not it threw. -/
theorem showConnection_visible (numStr : JSNum → String) (s : Screen) :
    (showConnection numStr s).1.connectionHidden = false := by
  unfold showConnection
  simp only
  split
  · rfl
  · split
    · rfl
    · split
      · rfl
      · split <;> rfl

/-- The onboarding hint does not touch the connection. -/
theorem updateOnboardingHint_connectionHidden (s : Screen) :
    (updateOnboardingHint s).connectionHidden = s.connectionHidden := by
  unfold updateOnboardingHint
  split <;> rfl

/-- C8: with a rule loaded, `onRuleUpdate` calls exactly one of `showConnection` and
`hideConnection`: `showConnection`, which leaves the connection visible, if and only if
the rule has a truthy trigger and a truthy effect and nothing is being dragged;
`hideConnection`, which leaves it hidden, in every other state. -/
theorem onRuleUpdate_connection (numStr : JSNum → String) (s : Screen) (r : Rule)
    (hr : s.rule = some r) :
    ((onRuleUpdate numStr s).calls = [.showConnection] ↔
      (truthy r.trigger = true ∧ truthy r.effect = true ∧ s.dom.dragging = false)) ∧
    ((onRuleUpdate numStr s).calls = [.hideConnection] ↔
      ¬ (truthy r.trigger = true ∧ truthy r.effect = true ∧ s.dom.dragging = false)) ∧
    ((onRuleUpdate numStr s).screen.connectionHidden = false ↔
      (truthy r.trigger = true ∧ truthy r.effect = true ∧ s.dom.dragging = false)) ∧
    ((onRuleUpdate numStr s).screen.connectionHidden = true ↔
      ¬ (truthy r.trigger = true ∧ truthy r.effect = true ∧ s.dom.dragging = false)) := by
  by_cases hc : truthy r.trigger = true ∧ truthy r.effect = true ∧ s.dom.dragging = false
  · obtain ⟨h1, h2, h3⟩ := hc
    have hcalls : (onRuleUpdate numStr s).calls = [.showConnection] ∧
        (onRuleUpdate numStr s).screen.connectionHidden = false := by
      unfold onRuleUpdate
      simp only [hr, h1, h2, h3, Bool.and_self, Bool.not_false, if_true]
      generalize hsc : showConnection numStr _ = res
      have hvis : res.1.connectionHidden = false := by
        rw [← hsc]; exact showConnection_visible _ _
      rcases res with ⟨s2, _ | e⟩
      · exact ⟨rfl, by rw [updateOnboardingHint_connectionHidden]; exact hvis⟩
      · exact ⟨rfl, hvis⟩
    simp [hcalls.1, hcalls.2, h1, h2, h3]
  · have hcond : (truthy r.trigger && truthy r.effect && !s.dom.dragging) = false := by
      by_contra hne
      simp only [Bool.not_eq_false, Bool.and_eq_true, Bool.not_eq_true'] at hne
      exact hc ⟨hne.1.1, hne.1.2, hne.2⟩
    have hcalls : (onRuleUpdate numStr s).calls = [.hideConnection] ∧
        (onRuleUpdate numStr s).screen.connectionHidden = true := by
      unfold onRuleUpdate
      simp only [hr, hcond]
      exact ⟨rfl, by
        simp only [Bool.false_eq_true, if_false]
        rw [updateOnboardingHint_connectionHidden]; rfl⟩
    simp [hcalls.1, hcalls.2, hc]

/-- The read of a field of a truthy value does not throw. -/
theorem getField_of_truthy (key : String) (v : JSVal) (h : truthy v = true) :
    ∃ w, getField (E := Empty) key v = .ok w := by
  cases v with
  | undefined => simp [truthy] at h
  | null => simp [truthy] at h
  | bool b => exact ⟨_, rfl⟩
  | num c => exact ⟨_, rfl⟩
  | str t => exact ⟨_, rfl⟩
  | obj props =>
    simp only [getField]
    split <;> exact ⟨_, rfl⟩

/-- C9 (amended): for a trigger block at `(tx, ty)` and an effect block at `(ex, ey)`,
whole pixel offsets from 0 on with `tx + ex + 310`, `ty + 50` and `ey + 50` at most
`2 ^ 53`, `showConnection` completes and writes the path `M sx sy C mx sy mx ey2 ex2 ey2`,
joined with blanks, where `sx = tx + 310`, `sy = ty + 50`, `ex2 = ex - 10`,
`ey2 = ey + 50` and `mx = (sx + ex2) / 2`; the trigger circle is centred at `(sx, sy)`,
the effect circle at `(ex2, ey2)`, and `mx` is as far from `sx` as `ex2` is from `mx`. -/
theorem showConnection_geometry (numStr : JSNum → String) (s : Screen) (tx ty ex ey : ℕ)
    (ht : s.dom.triggerTransform = some (translateCss tx ty))
    (he : s.dom.effectTransform = some (translateCss ex ey))
    (hx : tx + ex + 310 ≤ 2 ^ 53) (hty : ty + 50 ≤ 2 ^ 53) (hey : ey + 50 ≤ 2 ^ 53) :
    (showConnection numStr s).2 = none ∧
    (showConnection numStr s).1.pathD =
      " ".intercalate
        ["M", numStr (.finite ((tx : ℚ) + 310)), numStr (.finite ((ty : ℚ) + 50)),
         "C", numStr (.finite (((tx : ℚ) + 310 + ((ex : ℚ) - 10)) / 2)),
         numStr (.finite ((ty : ℚ) + 50)),
         numStr (.finite (((tx : ℚ) + 310 + ((ex : ℚ) - 10)) / 2)),
         numStr (.finite ((ey : ℚ) + 50)),
         numStr (.finite ((ex : ℚ) - 10)), numStr (.finite ((ey : ℚ) + 50))] ∧
    (showConnection numStr s).1.triggerCx = numStr (.finite ((tx : ℚ) + 310)) ∧
    (showConnection numStr s).1.triggerCy = numStr (.finite ((ty : ℚ) + 50)) ∧
    (showConnection numStr s).1.effectCx = numStr (.finite ((ex : ℚ) - 10)) ∧
    (showConnection numStr s).1.effectCy = numStr (.finite ((ey : ℚ) + 50)) ∧
    ((tx : ℚ) + 310 + ((ex : ℚ) - 10)) / 2 - ((tx : ℚ) + 310)
      = ((ex : ℚ) - 10) - ((tx : ℚ) + 310 + ((ex : ℚ) - 10)) / 2 := by
  have hct := transformToCoords_translateCss tx ty (by omega) (by omega)
  have hce := transformToCoords_translateCss ex ey (by omega) (by omega)
  have hsx : JSNum.add (.finite (tx : ℚ)) (.finite 310) = .finite ((tx : ℚ) + 310) := by
    have := add_finite_int (tx : ℤ) 310 (by rw [abs_of_nonneg (by positivity)]; omega)
    simpa using this
  have hsy : JSNum.add (.finite (ty : ℚ)) (.finite 50) = .finite ((ty : ℚ) + 50) := by
    have := add_finite_int (ty : ℤ) 50 (by rw [abs_of_nonneg (by positivity)]; omega)
    simpa using this
  have hey2 : JSNum.add (.finite (ey : ℚ)) (.finite 50) = .finite ((ey : ℚ) + 50) := by
    have := add_finite_int (ey : ℤ) 50 (by rw [abs_of_nonneg (by positivity)]; omega)
    simpa using this
  have hex2 : JSNum.sub (.finite (ex : ℚ)) (.finite 10) = .finite ((ex : ℚ) - 10) := by
    have := sub_finite_int (ex : ℤ) 10 (by rw [abs_le]; constructor <;> omega)
    simpa using this
  have hsum : JSNum.add (.finite ((tx : ℚ) + 310)) (.finite ((ex : ℚ) - 10))
      = .finite ((tx : ℚ) + 310 + ((ex : ℚ) - 10)) := by
    have := add_finite_int ((tx : ℤ) + 310) ((ex : ℤ) - 10)
      (by rw [abs_le]; constructor <;> omega)
    simpa using this
  have hmid : JSNum.half (.finite ((tx : ℚ) + 310 + ((ex : ℚ) - 10)))
      = .finite (((tx : ℚ) + 310 + ((ex : ℚ) - 10)) / 2) := by
    have := half_finite_int ((tx : ℤ) + 310 + ((ex : ℤ) - 10))
      (by rw [abs_le]; constructor <;> omega)
    simpa using this
  refine ⟨?_, ?_, ?_, ?_, ?_, ?_, by ring⟩ <;>
    simp only [showConnection, ht, he, hct, hce, pathDesc, hsx, hsy, hey2, hex2, hsum, hmid]

/-- C8 at a concrete input: the example rule has a trigger and an effect and nothing is
dragged, so `showConnection` is called and the connection ends up visible. -/
theorem onRuleUpdate_connection_witness :
    exampleScreen.rule = some (exampleMkRule exampleRuleDesc) ∧
    (onRuleUpdate exampleNumStr exampleScreen).calls = [.showConnection] ∧
    (onRuleUpdate exampleNumStr exampleScreen).screen.connectionHidden = false :=
  ⟨rfl,
   (onRuleUpdate_connection exampleNumStr exampleScreen (exampleMkRule exampleRuleDesc)
      rfl).1.mpr ⟨rfl, rfl, rfl⟩,
   (onRuleUpdate_connection exampleNumStr exampleScreen (exampleMkRule exampleRuleDesc)
      rfl).2.2.1.mpr ⟨rfl, rfl, rfl⟩⟩

/-- C9 at a concrete input: with the trigger block at (20, 30) and the effect block at
(400, 130) the path is `M 330 80 C 360 80 360 180 390 180`. -/
theorem showConnection_geometry_witness :
    exampleScreen.dom.triggerTransform = some (translateCss 20 30) ∧
    exampleScreen.dom.effectTransform = some (translateCss 400 130) ∧
    (showConnection exampleNumStr exampleScreen).2 = none ∧
    (showConnection exampleNumStr exampleScreen).1.pathD
      = "M 330 80 C 360 80 360 180 390 180" :=
  ⟨rfl, rfl,
   (showConnection_geometry exampleNumStr exampleScreen 20 30 400 130 rfl rfl
      (by norm_num) (by norm_num) (by norm_num)).1, by
    rw [(showConnection_geometry exampleNumStr exampleScreen 20 30 400 130 rfl rfl
      (by norm_num) (by norm_num) (by norm_num)).2.1]
    norm_num [exampleNumStr]
    rfl⟩

/-- The sum `2 ^ 53 + 310` is a binary64 value. -/
theorem far_startX :
    JSNum.add (.finite 9007199254740992) (.finite 310) = .finite 9007199254741302 := by
  have hu : ulpOf (9007199254740992 + 310 : ℚ) = 2 := by
    rw [ulpOf_of_bounds _ 53 (by norm_num [abs_of_pos]) (by norm_num [abs_of_pos])
      (by norm_num)]
    norm_num
  have := roundDouble_of_int_quot (9007199254740992 + 310 : ℚ) 4503599627370651
    (by rw [hu]; norm_num) (by norm_num [abs_of_pos])
  rw [JSNum.add, this]
  norm_num

/-- The sum `2 ^ 53 + 310 + 391` lies halfway between two binary64 values and is rounded
down, to the even one. -/
theorem far_sum :
    JSNum.add (.finite 9007199254741302) (.finite 391) = .finite 9007199254741692 := by
  have hu : ulpOf (9007199254741302 + 391 : ℚ) = 2 := by
    rw [ulpOf_of_bounds _ 53 (by norm_num [abs_of_pos]) (by norm_num [abs_of_pos])
      (by norm_num)]
    norm_num
  have hf : ⌊((9007199254741302 + 391 : ℚ) / 2)⌋ = 4503599627370846 := by
    rw [Int.floor_eq_iff]; norm_num
  have hr : roundHalfEven ((9007199254741302 + 391 : ℚ) / 2) = 4503599627370846 := by
    unfold roundHalfEven
    rw [hf]
    norm_num
  rw [JSNum.add]
  unfold roundDouble
  rw [hu, hr]
  norm_num

/-- C9 (counterexample): with the trigger block at (20, 300.5) the regular expression
finds no match, `showConnection` throws and the path is not written; with the trigger
block at (9007199254740992, 30) and the effect block at (401, 130) the path is written
with `mx = 4503599627370846`, which is not `(sx + ex2) / 2` for `sx = 9007199254741302`
and `ex2 = 391`, and is not as far from `sx` as `ex2` is from it. -/
theorem showConnection_not_every_position :
    ((showConnection exampleNumStr fractionalScreen).2
        = some (.typeError "Cannot read properties of null (reading 1)") ∧
      (showConnection exampleNumStr fractionalScreen).1.pathD = fractionalScreen.pathD) ∧
    ((showConnection exampleNumStr farScreen).1.pathD =
        pathDesc exampleNumStr (.finite 9007199254741302) (.finite 80)
          (.finite 4503599627370846) (.finite 391) (.finite 180) ∧
      (4503599627370846 : ℚ) ≠ (9007199254741302 + 391) / 2 ∧
      (4503599627370846 : ℚ) - 9007199254741302 ≠ 391 - 4503599627370846) := by
  refine ⟨⟨rfl, rfl⟩, ?_, by norm_num, by norm_num⟩
  have hct : transformToCoords "translate(9007199254740992px, 30px)"
      = .ok ⟨.finite 9007199254740992, .finite 30⟩ := by
    have := transformToCoords_translateCss 9007199254740992 30 (by norm_num) (by norm_num)
    simpa using this
  have hce : transformToCoords "translate(401px, 130px)"
      = .ok ⟨.finite 401, .finite 130⟩ := by
    have := transformToCoords_translateCss 401 130 (by norm_num) (by norm_num)
    simpa using this
  have hsy : JSNum.add (.finite 30) (.finite 50) = .finite 80 := by
    have := add_finite_int 30 50 (by norm_num)
    norm_num at this
    exact this
  have hey : JSNum.add (.finite 130) (.finite 50) = .finite 180 := by
    have := add_finite_int 130 50 (by norm_num)
    norm_num at this
    exact this
  have hex : JSNum.sub (.finite 401) (.finite 10) = .finite 391 := by
    have := sub_finite_int 401 10 (by norm_num)
    norm_num at this
    exact this
  have hmid : JSNum.half (.finite 9007199254741692) = .finite 4503599627370846 := by
    have := roundDouble_int 4503599627370846 (by norm_num)
    have hq : (9007199254741692 : ℚ) / 2 = ((4503599627370846 : ℤ) : ℚ) := by norm_num
    rw [JSNum.half, hq, this]
    norm_num
  have ht : farScreen.dom.triggerTransform = some "translate(9007199254740992px, 30px)" :=
    rfl
  have he : farScreen.dom.effectTransform = some "translate(401px, 130px)" := rfl
  simp only [showConnection, ht, he, hct, hce, far_startX, far_sum, hsy, hey, hex, hmid]

/-- The frame of `showConnection`: it writes neither to the document queries nor to the
rule. -/
theorem showConnection_frame (numStr : JSNum → String) (s : Screen)
    (res : Screen × Option ScreenError) (h : showConnection numStr s = res) :
    res.1.dom = s.dom ∧ res.1.rule = s.rule := by
  subst h
  unfold showConnection
  simp only
  split
  · exact ⟨rfl, rfl⟩
  · split
    · exact ⟨rfl, rfl⟩
    · split
      · exact ⟨rfl, rfl⟩
      · split <;> exact ⟨rfl, rfl⟩

/-- The frame of the onboarding hint. -/
theorem updateOnboardingHint_frame (s : Screen) :
    (updateOnboardingHint s).dom = s.dom ∧ (updateOnboardingHint s).rule = s.rule := by
  unfold updateOnboardingHint
  split <;> exact ⟨rfl, rfl⟩

/-- The frame of `onRuleUpdate`: it writes neither to the document queries nor to the
rule. -/
theorem onRuleUpdate_frame (numStr : JSNum → String) (s : Screen) :
    (onRuleUpdate numStr s).screen.dom = s.dom ∧
      (onRuleUpdate numStr s).screen.rule = s.rule := by
  rcases s with ⟨rule, a1, a2, a3, a4, a5, a6, a7, a8, a9, a10, dom⟩
  cases rule with
  | none => exact ⟨rfl, rfl⟩
  | some r =>
    unfold onRuleUpdate
    simp only
    split
    · generalize hsc : showConnection numStr _ = res
      have hf := showConnection_frame numStr _ res hsc
      rcases res with ⟨s2, _ | e⟩
      · simp only [(updateOnboardingHint_frame s2).1, (updateOnboardingHint_frame s2).2]
        exact hf
      · exact hf
    · simp only [(updateOnboardingHint_frame _).1, (updateOnboardingHint_frame _).2]
      exact ⟨rfl, rfl⟩

/-- With a rule whose part for `role` is truthy, `makeDevicePropertyBlock` makes the block
for that part: it looks up the thing of the part, hands the part to the block, places the
block in the document and keeps everything else. -/
theorem makeDevicePropertyBlock_ok (env : Env) (s : Screen) (r : Rule) (role : Role)
    (x y : JSNum) (p : JSVal) (hr : s.rule = some r) (hp : r.part role = p)
    (ht : truthy p = true) :
    makeDevicePropertyBlock env s role x y =
      .ok ({ s with dom := (env.place s.dom ⟨role, thingFor env p, x, y, p⟩) },
           ⟨role, thingFor env p, x, y, p⟩) := by
  obtain ⟨q, hq⟩ := getField_of_truthy "property" p ht
  unfold makeDevicePropertyBlock
  simp only [hr, hp, hq, thingFor, partOf]

/-- A falsy description has no truthy part. -/
theorem hasTruthy_of_falsy (key : String) (desc : JSVal) (h : truthy desc = false) :
    hasTruthy key desc = false := by
  cases desc with
  | undefined => rfl
  | null => rfl
  | bool b => rfl
  | num c => rfl
  | str t => rfl
  | obj props => simp [truthy] at h

/-- A truthy description answers the read of a part, and has a truthy part exactly when
the value read is truthy. -/
theorem hasTruthy_of_truthy (key : String) (desc : JSVal) (h : truthy desc = true) :
    ∃ v, getField (E := Empty) key desc = .ok v ∧ hasTruthy key desc = truthy v := by
  cases desc with
  | undefined => simp [truthy] at h
  | null => simp [truthy] at h
  | bool b => exact ⟨_, rfl, rfl⟩
  | num c => exact ⟨_, rfl, rfl⟩
  | str t => exact ⟨_, rfl, rfl⟩
  | obj props =>
    obtain ⟨w, hw⟩ := getField_of_truthy key (.obj props) rfl
    exact ⟨w, hw, by simp only [hasTruthy, hw]⟩

/-- What the continuation of lines 202 to 218 does: the blocks it makes, the document
and the rule it leaves. -/
theorem onRuleLoaded_blocks (env : Env) (s : Screen) (fetches : List String) (desc : JSVal)
    (hkeep : KeepsParts env.mkRule desc) :
    (onRuleLoaded env s fetches desc).blocks =
      ((if hasTruthy "trigger" desc then
          [⟨Role.trigger, thingFor env (partOf "trigger" desc), JSNum.finite 20,
            env.areaRect.height.half, partOf "trigger" desc⟩] else []) ++
       (if hasTruthy "effect" desc then
          [⟨Role.effect, thingFor env (partOf "effect" desc),
            env.areaRect.width.sub (.finite 320), env.areaRect.height.half,
            partOf "effect" desc⟩] else [])) ∧
    (onRuleLoaded env s fetches desc).screen.dom =
      (onRuleLoaded env s fetches desc).blocks.foldl env.place s.dom ∧
    (onRuleLoaded env s fetches desc).screen.rule = some (env.mkRule desc) ∧
    (onRuleLoaded env s fetches desc).fetches = fetches := by
  cases hd : truthy desc with
  | false =>
    simp only [onRuleLoaded, hd, hasTruthy_of_falsy _ _ hd, Bool.false_eq_true, if_false,
      List.append_nil, List.foldl_nil, onRuleUpdate_frame, and_self]
  | true =>
    obtain ⟨t, hgt, hht⟩ := hasTruthy_of_truthy "trigger" desc hd
    obtain ⟨e, hge, hhe⟩ := hasTruthy_of_truthy "effect" desc hd
    have hkt : (env.mkRule desc).part .trigger = t := hkeep .trigger t hgt
    have hke : (env.mkRule desc).part .effect = e := hkeep .effect e hge
    have hpt : partOf "trigger" desc = t := by simp only [partOf, hgt]
    have hpe : partOf "effect" desc = e := by simp only [partOf, hge]
    rw [hht, hhe, hpt, hpe]
    unfold onRuleLoaded
    simp only [hd, hgt, hge, if_true]
    cases htt : truthy t with
    | false =>
      simp only [Bool.false_eq_true, if_false]
      cases hte : truthy e with
      | false =>
        simp only [Bool.false_eq_true, if_false, List.append_nil, List.foldl_nil,
          onRuleUpdate_frame, and_self]
      | true =>
        have hmk := makeDevicePropertyBlock_ok env
          { s with rule := some (env.mkRule desc) } (env.mkRule desc) .effect
          (env.areaRect.width.sub (.finite 320)) env.areaRect.height.half e rfl hke hte
        simp only [hmk, if_true, List.nil_append, List.foldl_cons, List.foldl_nil,
          onRuleUpdate_frame, and_self]
    | true =>
      have hmk1 := makeDevicePropertyBlock_ok env
        { s with rule := some (env.mkRule desc) } (env.mkRule desc) .trigger
        (.finite 20) env.areaRect.height.half t rfl hkt htt
      simp only [hmk1, if_true]
      cases hte : truthy e with
      | false =>
        simp only [Bool.false_eq_true, if_false, List.append_nil, List.foldl_cons,
          List.foldl_nil, onRuleUpdate_frame, and_self]
      | true =>
        have hmk := makeDevicePropertyBlock_ok env
          { s with rule := some (env.mkRule desc)
                   dom := (env.place s.dom
                     ⟨.trigger, thingFor env t, .finite 20, env.areaRect.height.half, t⟩) }
          (env.mkRule desc) .effect
          (env.areaRect.width.sub (.finite 320)) env.areaRect.height.half e rfl hke hte
        simp only [hmk, if_true, List.cons_append, List.nil_append, List.foldl_cons,
          List.foldl_nil, onRuleUpdate_frame, and_self]

/-- C7: `show` makes device property blocks from the loaded description only where
applicable. A trigger block is made if and only if the description is non-null and has a
truthy `trigger`: at `x = 20` and half the height of the rule area, for the thing of the
trigger, carrying the trigger as its rule part. An effect block is made if and only if the
description is non-null and has a truthy `effect`: at the width of the rule area less 320
and half its height, for the thing of the effect, carrying the effect. The blocks are
placed in the document in that order and the rule built from the description is kept. For
the rule id `new` the description is `null`, nothing is fetched and no block is made; for
every other id the description is the one fetched for that id. -/
theorem showRule_blocks (env : Env) (s : Screen) (ruleId : String)
    (hkeep : KeepsParts env.mkRule (rulePromise env ruleId).2) :
    (showRule env s ruleId).blocks =
      ((if hasTruthy "trigger" (rulePromise env ruleId).2 then
          [⟨Role.trigger, thingFor env (partOf "trigger" (rulePromise env ruleId).2),
            JSNum.finite 20, env.areaRect.height.half,
            partOf "trigger" (rulePromise env ruleId).2⟩] else []) ++
       (if hasTruthy "effect" (rulePromise env ruleId).2 then
          [⟨Role.effect, thingFor env (partOf "effect" (rulePromise env ruleId).2),
            env.areaRect.width.sub (.finite 320), env.areaRect.height.half,
            partOf "effect" (rulePromise env ruleId).2⟩] else [])) ∧
    (showRule env s ruleId).screen.dom = (showRule env s ruleId).blocks.foldl env.place s.dom ∧
    (showRule env s ruleId).screen.rule = some (env.mkRule (rulePromise env ruleId).2) ∧
    (ruleId = "new" → (rulePromise env ruleId).2 = .null ∧
      (showRule env s ruleId).fetches = [] ∧ (showRule env s ruleId).blocks = []) ∧
    (ruleId ≠ "new" →
      (rulePromise env ruleId).2 = env.fetched ("/rules-engine/rules/" ++ ruleId) ∧
      (showRule env s ruleId).fetches = ["/rules-engine/rules/" ++ ruleId]) := by
  have hshow : showRule env s ruleId = onRuleLoaded env (addDeviceBlocks env s)
      (rulePromise env ruleId).1 (rulePromise env ruleId).2 := rfl
  obtain ⟨h1, h2, h3, h4⟩ := onRuleLoaded_blocks env (addDeviceBlocks env s)
    (rulePromise env ruleId).1 (rulePromise env ruleId).2 hkeep
  rw [hshow]
  refine ⟨h1, h2, h3, ?_, ?_⟩
  · intro hnew
    subst hnew
    refine ⟨rfl, by rw [h4]; rfl, ?_⟩
    rw [h1]
    rfl
  · intro hne
    rw [h4]
    simp only [rulePromise, hne, ne_eq, not_false_eq_true, if_true, and_self]

/-- The example `Rule` constructor keeps the parts of every description. -/
theorem exampleMkRule_keepsParts (desc : JSVal) : KeepsParts exampleMkRule desc := by
  intro role v h
  cases role
  · simp only [Role.key] at h
    simp only [exampleMkRule, Rule.part, partOf, h]
  · simp only [Role.key] at h
    simp only [exampleMkRule, Rule.part, partOf, h]

/-- C7 at a concrete input: the example description has a trigger and an effect, and in a
rule area of 1000 by 600 pixels the two blocks are made at (20, 300) and at (680, 300). -/
theorem showRule_blocks_witness :
    KeepsParts exampleEnv.mkRule (rulePromise exampleEnv "7").2 ∧
    (showRule exampleEnv exampleScreen "7").blocks =
      [⟨Role.trigger, some ⟨"Lamp", .obj []⟩, .finite 20, .finite 300,
          .obj [("property", .obj [("name", .str "on")])]⟩,
       ⟨Role.effect, some ⟨"Lamp", .obj []⟩, .finite 680, .finite 300,
          .obj [("type", .str "SetEffect"), ("property", .obj [("name", .str "level")]),
            ("value", .num "80")]⟩] :=
  ⟨exampleMkRule_keepsParts _, by
    rw [(showRule_blocks exampleEnv exampleScreen "7" (exampleMkRule_keepsParts _)).1]
    have h1 : hasTruthy "trigger" (rulePromise exampleEnv "7").2 = true := by decide
    have h2 : hasTruthy "effect" (rulePromise exampleEnv "7").2 = true := by decide
    have hh : JSNum.half (.finite 600) = .finite 300 := by
      have := half_finite_int 600 (by norm_num)
      norm_num at this
      exact this
    have hw : JSNum.sub (.finite 1000) (.finite 320) = .finite 680 := by
      have := sub_finite_int 1000 320 (by norm_num)
      norm_num at this
      exact this
    have ha : exampleEnv.areaRect = ⟨.finite 1000, .finite 600⟩ := rfl
    rw [h1, h2, ha]
    simp only [hh, hw, if_true]
    rfl⟩

end RuleScreen

end Gateway
